import Mathlib

/-!
Shallow embedding of the gregwebs/go-concurrent library (packages
`concurrent` and `concurrent/channel`) and proofs about it.

Go values are modelled as follows:
* a Go `error` is `Option GoErr` (`none` = nil);
* a Go slice `[]T` that may be nil is `Option (List T)` (`none` = nil slice);
* a buffered Go channel's contents are a `List` (front = next to receive);
* mutex-protected operations are atomic state transitions; executions are
  linearizations, modelled as lists of events folded over the state.
-/

namespace GoConcurrent

/-- A Go error value (non-nil).  `mk` is an ordinary error with a message,
`joinErr` is the result of `errors.Join` over the given non-nil errors. -/
inductive GoErr where
  | mk (msg : String)
  | joinErr (errs : List GoErr)
deriving Repr

/-- A Go `error`: `none` is nil. -/
abbrev Error := Option GoErr

instance : Inhabited Error := ⟨none⟩

/-- `errors.Join(errs...)`: nil when every argument is nil, otherwise an
error wrapping the non-nil arguments in order. -/
def errorsJoin (errs : List Error) : Error :=
  let nonNil := errs.filterMap id
  if nonNil.isEmpty then none else some (GoErr.joinErr nonNil)

/-- `joins(errs ...error) []error` (src/concurrent.go lines 171-188): counts
the non-nil errors; returns nil (`none`) when there are none, otherwise a
fresh slice holding exactly the non-nil errors in order. -/
def joins (errs : List Error) : Option (List Error) :=
  let nonNil := errs.filter (fun e => e.isSome)
  if nonNil.length = 0 then none else some nonNil

/-! ### concurrent.UnboundedChan (src/unbounded_chan.go)

A mutex-guarded slice `sliceT`; every method is atomic.  The state is the
slice contents. -/

namespace UnboundedChan

/-- `Send` (src/unbounded_chan.go): appends to the slice. -/
def Send (s : List α) (x : α) : List α := s ++ [x]

/-- `Recv` (src/unbounded_chan.go lines 18-32): non-blocking; pops the first
element, or returns the zero value and false when the slice is empty. -/
def Recv [Inhabited α] (s : List α) : (α × Bool) × List α :=
  match s with
  | [] => ((default, false), [])
  | x :: rest => ((x, true), rest)

/-- `Drain` (src/unbounded_chan.go): returns nil when empty, otherwise the
whole slice, resetting the state to empty. -/
def Drain (s : List α) : Option (List α) × List α :=
  match s with
  | [] => (none, [])
  | _ => (some s, [])

end UnboundedChan

/-! ### Panic recovery (src/unnamed/part_001 lines 70-82, function `recovered`) -/

/-- The value passed to Go `panic`: either a value satisfying the error
interface, or any other value with its `%v` rendering. -/
inductive PanicPayload where
  | errPayload (e : GoErr)
  | valPayload (desc : String)
deriving Repr

/-- How a work unit's execution ends: a normal return carrying a possibly-nil
error, or a panic with a payload. -/
inductive Outcome where
  | ret (err : Error)
  | panicked (p : PanicPayload)
deriving Repr

/-- The error `recovered` synthesizes from a recovered panic payload: a
payload that is itself an error is passed through; any other payload is
wrapped via `fmt.Errorf("panic: %v", r)`. -/
def convertPanic : PanicPayload → GoErr
  | .errPayload e => e
  | .valPayload d => .mk ("panic: " ++ d)

/-- `recovered(fn)` (src/unnamed/part_001 lines 70-82): the error it
returns, given how `fn` ended: the returned error on a normal return, the
converted payload on a panic. -/
def recovered : Outcome → Error
  | .ret err => err
  | .panicked p => some (convertPanic p)

/-- The non-nil error (if any) that a unit with the given outcome causes the
group to record: `Group.do` records `fn`'s error when non-nil, and records
the error `recovered` synthesizes when the unit panics. -/
def Outcome.failErr : Outcome → Option GoErr
  | .ret none => none
  | .ret (some e) => some e
  | .panicked p => some (convertPanic p)

/-- The errors recorded by a batch of outcomes, in completion order. -/
def failuresOf (os : List Outcome) : List GoErr :=
  os.filterMap Outcome.failErr

/-! ### Group (src/group.go)

`firstError` is a `chan error` of capacity 1 that may also be nil. -/

/-- A possibly-nil Go channel of capacity 1. -/
inductive Chan1 (α : Type) where
  | chanNil
  | chanEmpty
  | chanFull (a : α)
deriving Repr

/-- `TrySend` (src/concurrent.go) specialized to a capacity-1 channel:
succeeds exactly when the channel exists and is empty (a send on a nil
channel can never proceed, so the select default fires). -/
def Chan1.trySend : Chan1 α → α → Chan1 α × Bool
  | .chanNil, _ => (.chanNil, false)
  | .chanEmpty, a => (.chanFull a, true)
  | .chanFull b, _ => (.chanFull b, false)

/-- `TryRecv` (src/concurrent.go lines 111-121) specialized to a capacity-1
channel that is never closed: succeeds exactly when a value is buffered. -/
def Chan1.tryRecv [Inhabited α] : Chan1 α → (α × Bool) × Chan1 α
  | .chanNil => ((default, false), .chanNil)
  | .chanEmpty => ((default, false), .chanEmpty)
  | .chanFull a => ((a, true), .chanEmpty)

/-- Receiving from a capacity-1 channel inside a select: ready exactly when
a value is buffered. -/
def Chan1.recvReady : Chan1 α → Bool
  | .chanFull _ => true
  | _ => false

/-- The state of a `Group` (src/group.go) together with the cancellation
state of its derived context.
* `errChan`: contents of the `UnboundedChan[error]`;
* `firstError`: the capacity-1 `chan error` (nil until first needed);
* `limiterCap`/`limiterLen`: capacity and current occupancy of the
  `limiter` channel (`limiterCap = none` means the channel is nil);
* `running`: the `sync.WaitGroup` counter (admitted, unfinished units);
* `cancelCause`: `none` while `cancel` has never been called; once the
  first `cancel(c)` runs it becomes `some c` and stays (the semantics of
  `context.WithCancelCause`: only the first call sets the cause). -/
structure Group where
  errChan : List Error
  firstError : Chan1 Error
  limiterCap : Option Nat
  limiterLen : Nat
  running : Nat
  cancelCause : Option Error
deriving Repr

/-- `len(g.limiter)`: 0 for a nil channel, else the buffered token count. -/
def Group.limiterLenGo (g : Group) : Nat :=
  match g.limiterCap with
  | none => 0
  | some _ => g.limiterLen

/-- `NewGroupContext` (src/group.go): fresh group; the derived context is
not yet cancelled. -/
def NewGroupContext : Group :=
  { errChan := [], firstError := .chanNil, limiterCap := none,
    limiterLen := 0, running := 0, cancelCause := none }

/-- A call to the group's `cancel(cause)`: the first call sets the cause of
the derived context; later calls are no-ops. -/
def Group.cancel (g : Group) (cause : Error) : Group :=
  match g.cancelCause with
  | some _ => g
  | none => { g with cancelCause := some cause }

/-- `Group.error` (src/group.go lines 89-98): a nil error is ignored;
otherwise the error is sent to `errChan`, `firstError` is created if nil,
and the error is offered to `firstError` with a non-blocking send. -/
def Group.error (g : Group) (err : Error) : Group :=
  match err with
  | none => g
  | some _ =>
    let g1 := { g with errChan := UnboundedChan.Send g.errChan err }
    let g2 :=
      match g1.firstError with
      | .chanNil => { g1 with firstError := .chanEmpty }
      | _ => g1
    { g2 with firstError := (g2.firstError.trySend err).1 }

/-- `Group.done` (src/group.go lines 82-87): receives a token from the
limiter when one exists, then decrements the wait-group counter. -/
def Group.done (g : Group) : Group :=
  let g1 :=
    match g.limiterCap with
    | none => g
    | some _ => { g with limiterLen := g.limiterLen - 1 }
  { g1 with running := g1.running - 1 }

/-- The `wg.Add(1)` performed by `Group.do` when a unit is admitted and
launched (src/group.go lines 64-66); the unit's body runs later. -/
def Group.doStart (g : Group) : Group :=
  { g with running := g.running + 1 }

/-- The effect of a launched unit's body running to completion with outcome
`o` (src/group.go lines 64-80): inside `recovered`, a non-nil returned
error is recorded; a panic is recovered and its converted error recorded;
finally the deferred `done` runs. -/
def Group.unitFinish (g : Group) (o : Outcome) : Group :=
  let g1 :=
    match o with
    | .ret (some e) => g.error (some e)
    | _ => g
  let errR : Error :=
    match o with
    | .panicked p => recovered (.panicked p)
    | _ => none
  let g2 :=
    match errR with
    | none => g1
    | some e => g1.error (some e)
  g2.done

/-- `Group.TryGo` (src/group.go lines 173-184): with a limiter, a
non-blocking send of a token; on failure returns false without starting the
work; otherwise the work is started and true returned. -/
def Group.tryGo (g : Group) : Group × Bool :=
  match g.limiterCap with
  | none => (g.doStart, true)
  | some cap =>
    if g.limiterLen < cap then
      (Group.doStart { g with limiterLen := g.limiterLen + 1 }, true)
    else
      (g, false)

/-- `Group.Go` admission (src/group.go lines 166-171): with a limiter, a
blocking send of a token; `none` means the call is currently blocked. -/
def Group.goAdmit (g : Group) : Option Group :=
  match g.limiterCap with
  | none => some g.doStart
  | some cap =>
    if g.limiterLen < cap then
      some (Group.doStart { g with limiterLen := g.limiterLen + 1 })
    else
      none

/-- `Group.SetLimit` (src/group.go lines 186-195): `n < 0` removes the
limiter; otherwise the call panics (`none`) when the limiter holds tokens,
else installs a fresh limiter of capacity `n`. -/
def Group.SetLimit (g : Group) (n : Int) : Option Group :=
  if n < 0 then
    some { g with limiterCap := none, limiterLen := 0 }
  else if g.limiterLenGo ≠ 0 then
    none
  else
    some { g with limiterCap := some n.toNat, limiterLen := 0 }

/-- `Group.Wait` (src/group.go lines 142-148), linearized at a point where
`wg.Wait` has returned: drains `errChan`, calls `cancel` with the join of
the drained batch (the deferred call), and returns `joins` of the batch. -/
def Group.Wait (g : Group) : Group × Option (List Error) :=
  let p := UnboundedChan.Drain g.errChan
  let errsList := p.1.getD []
  let g1 := { g with errChan := p.2 }
  let g2 := g1.cancel (errorsJoin errsList)
  (g2, joins errsList)

/-- `g.firstError = make(chan error, 1)` when nil (src/group.go lines
108-110). -/
def Group.ensureFirstError (g : Group) : Group :=
  match g.firstError with
  | .chanNil => { g with firstError := .chanEmpty }
  | _ => g

/-- `Group.WaitOrError` (src/group.go lines 104-137), linearized at a state
where its select resolves through completion: ensure `firstError` exists;
if `errChan.Recv` yields an error, return it; otherwise (all units having
completed) favor `TryRecv(firstError)`, then a drained `errChan`, then nil.
The deferred `cancel` runs with the returned value. -/
def Group.WaitOrError (g : Group) : Group × Error :=
  let g0 := g.ensureFirstError
  let r1 := UnboundedChan.Recv g0.errChan
  if r1.1.2 then
    let g1 := { g0 with errChan := r1.2 }
    (g1.cancel r1.1.1, r1.1.1)
  else
    let r2 := g0.firstError.tryRecv
    if r2.1.2 then
      let g1 := { g0 with firstError := r2.2 }
      (g1.cancel r2.1.1, r2.1.1)
    else
      let r3 := UnboundedChan.Drain g0.errChan
      let g1 := { g0 with errChan := r3.2 }
      match r3.1 with
      | some (e :: _) => (g1.cancel e, e)
      | _ => (g1.cancel none, none)

/-- Fold `unitFinish` over a list of outcomes. -/
def Group.foldlFinish (g : Group) (os : List Outcome) : Group :=
  os.foldl Group.unitFinish g

/-- Launch (`wg.Add`) then run each outcome's unit to completion: a batch
of units all of which have finished before the next observation. -/
def Group.runBatch (g : Group) (os : List Outcome) : Group :=
  (os.foldl (fun h _ => h.doStart) g).foldlFinish os

/-! ### channel.Unbounded (src/channel/unbounded_chan.go)

A mutex-guarded pair of an overflow `buffer` slice and a buffered Go
`channel` of capacity `chanSize = 100`, plus the channel's closed flag.
Fallible operations return `Option`; `none` models a Go panic (send on a
closed channel, double close). -/

namespace Channel

/-- `chanSize` (src/channel/unbounded_chan.go). -/
def chanSize : Nat := 100

/-- State of a `channel.Unbounded[T]` (`receivers` is not modelled; no
claim concerns `Receiver`). -/
structure Unbounded (α : Type) where
  buffer : List α
  channel : List α
  closed : Bool
deriving Repr

/-- `NewUnbounded` (src/channel/unbounded_chan.go): empty buffer, fresh
open channel of capacity `chanSize`. -/
def NewUnbounded (α : Type) : Unbounded α :=
  { buffer := [], channel := [], closed := false }

/-- `concurrent.TrySend` on the capacity-`chanSize` channel: panics
(`none`) when the channel is closed; otherwise succeeds exactly when the
channel has room (in a linearized execution no receiver is blocked at the
send instant, so a full channel makes the select default fire). -/
def chanTrySend (closed : Bool) (chan : List α) (x : α) :
    Option (List α × Bool) :=
  if closed then none
  else if chan.length < chanSize then some (chan ++ [x], true)
  else some (chan, false)

/-- `concurrent.TryRecv` (src/concurrent.go lines 111-121) on the channel:
a buffered element is received; on an empty OPEN channel the select default
fires, returning the zero value and false; on an empty CLOSED channel the
receive case is always ready, yielding the zero value and TRUE (the select
arm does not use the comma-ok form). -/
def chanTryRecv [Inhabited α] (closed : Bool) (chan : List α) :
    (α × Bool) × List α :=
  match chan with
  | x :: rest => ((x, true), rest)
  | [] => ((default, closed), [])

/-- The loop of `transferBufferToChannel` (src/channel/unbounded_chan.go
lines 97-114): repeatedly `TrySend` the buffer head into the channel;
returns the final buffer and channel plus the boolean result (true iff the
buffer was emptied); `none` models the panic of a send to a closed
channel. -/
def transferLoop (closed : Bool) : List α → List α →
    Option (List α × List α × Bool)
  | [], chan => some ([], chan, true)
  | x :: rest, chan =>
    match chanTrySend closed chan x with
    | none => none
    | some (chan2, sent) =>
      if sent then transferLoop closed rest chan2
      else some (x :: rest, chan, false)

/-- `Unbounded.transferBufferToChannel` as a state transition. -/
def Unbounded.transfer (s : Unbounded α) : Option (Unbounded α × Bool) :=
  (transferLoop s.closed s.buffer s.channel).map
    (fun r => ({ s with buffer := r.1, channel := r.2.1 }, r.2.2))

/-- `Unbounded.Send` (src/channel/unbounded_chan.go lines 20-31): transfer
the buffer, then if the transfer emptied the buffer try a direct send to
the channel; on either failure append to the buffer.  `none` models the
panic of sending on a closed channel. -/
def Unbounded.Send (s : Unbounded α) (x : α) : Option (Unbounded α) :=
  (s.transfer).bind (fun p =>
    let s1 := p.1
    if p.2 then
      (chanTrySend s1.closed s1.channel x).map (fun q =>
        if q.2 then { s1 with channel := q.1 }
        else { s1 with buffer := s1.buffer ++ [x] })
    else
      some { s1 with buffer := s1.buffer ++ [x] })

/-- `Unbounded.Recv` (src/channel/unbounded_chan.go lines 33-38): transfer
the buffer, then a blocking comma-ok receive from the channel.  `some
((x, true), s)` = received `x`; `some ((zero, false), s)` = the channel is
closed and drained; `none` = the call does not return now (the receive
blocks; the transfer panic cannot occur for states reachable through the
API, where a closed queue has an empty buffer). -/
def Unbounded.Recv [Inhabited α] (s : Unbounded α) :
    Option ((α × Bool) × Unbounded α) :=
  (s.transfer).bind (fun p =>
    let s1 := p.1
    match s1.channel with
    | x :: rest => some ((x, true), { s1 with channel := rest })
    | [] =>
      if s1.closed then some ((default, false), s1)
      else none)

/-- `Unbounded.TryRecv` (src/channel/unbounded_chan.go lines 40-45):
transfer the buffer, then `concurrent.TryRecv` on the channel.  `none`
models the unreachable transfer panic. -/
def Unbounded.TryRecv [Inhabited α] (s : Unbounded α) :
    Option ((α × Bool) × Unbounded α) :=
  (s.transfer).map (fun p =>
    let s1 := p.1
    let q := chanTryRecv s1.closed s1.channel
    (q.1, { s1 with channel := q.2 }))

/-- `Unbounded.CloseWithOverflow` (src/channel/unbounded_chan.go lines
73-89): returns the overflow buffer (nil when empty), empties it, and
closes the channel; `none` models the panic of a double close. -/
def Unbounded.CloseWithOverflow (s : Unbounded α) :
    Option (Option (List α) × Unbounded α) :=
  if s.closed then none
  else
    let overflow := if s.buffer.length > 0 then some s.buffer else none
    some (overflow, { s with buffer := [], closed := true })

/-- A sequence of `Send` calls. -/
def sendAll (s : Unbounded α) : List α → Option (Unbounded α)
  | [] => some s
  | x :: rest => (s.Send x).bind (fun s1 => sendAll s1 rest)

/-- The drain loop of the claim (and of the repository's own test helper
`drain`): call `TryRecv` until it reports no item, accumulating the items
received.  `fuel` bounds the number of iterations; `none` means the loop
did not finish within `fuel` iterations. -/
def drainLoop [Inhabited α] : Nat → Unbounded α → List α →
    Option (List α × Unbounded α)
  | 0, _, _ => none
  | fuel + 1, s, acc =>
    match s.TryRecv with
    | none => none
    | some (r, s1) =>
      if r.2 then drainLoop fuel s1 (acc ++ [r.1])
      else some (acc, s1)

/-! ### Producer/consumer traces for the FIFO claim

A linearized execution touching one `Unbounded` queue: sends (any
producers, serialized by the mutex), single-consumer receives, and
spontaneous buffer-to-channel transfers.  No close event: the claim
concerns the live queue. -/

/-- One atomic event of a producer/consumer execution. -/
inductive QEvent (α : Type) where
  | send (x : α)
  | recvPop
  | transferOnly
deriving Repr

/-- Queue state plus history: everything sent, and everything the single
consumer has observed, in order. -/
structure QState (α : Type) where
  q : Unbounded α
  consumed : List α
  sent : List α
deriving Repr

/-- Apply one event.  A `recvPop` on an empty open queue is a receive that
is still blocked (no observation); `Send` on an open queue never panics, so
the `none` fallbacks never fire on the traces considered. -/
def qStep [Inhabited α] (s : QState α) : QEvent α → QState α
  | .send x =>
    match s.q.Send x with
    | some q2 => { q := q2, consumed := s.consumed, sent := s.sent ++ [x] }
    | none => s
  | .recvPop =>
    match s.q.Recv with
    | some ((x, true), q2) =>
      { q := q2, consumed := s.consumed ++ [x], sent := s.sent }
    | _ => s
  | .transferOnly =>
    match s.q.transfer with
    | some p => { s with q := p.1 }
    | none => s

/-- Run a trace from a fresh queue. -/
def runQ [Inhabited α] (t : List (QEvent α)) : QState α :=
  t.foldl qStep { q := NewUnbounded α, consumed := [], sent := [] }

end Channel

/-! ### Group event traces (for the reachability invariants) -/

/-- One atomic observable event on a `Group`. -/
inductive GEvent where
  | goCall
  | tryGoCall
  | finish (o : Outcome)
  | waitCall
  | waitOrErrorCall
  | setLimitCall (n : Int)
deriving Repr

/-- Apply one event to a group.  Calls that block (`Go` on a full gate) or
panic (`SetLimit`) leave the state unchanged. -/
def Group.step (g : Group) : GEvent → Group
  | .goCall => (g.goAdmit).getD g
  | .tryGoCall => (g.tryGo).1
  | .finish o => g.unitFinish o
  | .waitCall => (g.Wait).1
  | .waitOrErrorCall => (g.WaitOrError).1
  | .setLimitCall n => (g.SetLimit n).getD g

/-- Run a sequence of events from a fresh group. -/
def runG (evs : List GEvent) : Group :=
  evs.foldl Group.step NewGroupContext

/-! ## Theorems -/

namespace Channel

/-- Unfolding equation for `transferLoop` on a nonempty buffer. -/
theorem transferLoop_cons (c : Bool) (x : α) (rest chan : List α) :
    transferLoop c (x :: rest) chan =
      if c then none
      else if chan.length < chanSize then transferLoop c rest (chan ++ [x])
      else some (x :: rest, chan, false) := by
  cases c <;> by_cases h : chan.length < chanSize <;>
    simp [transferLoop, chanTrySend, h]

/-- On an open queue the transfer loop never panics. -/
theorem transferLoop_some_of_open (buf chan : List α) :
    (transferLoop false buf chan).isSome = true := by
  induction buf generalizing chan with
  | nil => simp [transferLoop]
  | cons x rest ih =>
    rw [transferLoop_cons]
    by_cases h : chan.length < chanSize <;> simp [h, ih]

/-- The transfer loop only moves elements from the front of the buffer to
the back of the channel: the combined contents are unchanged. -/
theorem transferLoop_concat {c : Bool} {buf chan b ch : List α} {ok : Bool}
    (h : transferLoop c buf chan = some (b, ch, ok)) :
    ch ++ b = chan ++ buf := by
  induction buf generalizing chan with
  | nil =>
    simp only [transferLoop, Option.some.injEq, Prod.mk.injEq] at h
    obtain ⟨h1, h2, _⟩ := h
    subst h1
    subst h2
    simp
  | cons x rest ih =>
    rw [transferLoop_cons] at h
    cases c with
    | true => simp at h
    | false =>
      by_cases hl : chan.length < chanSize
      · rw [if_neg Bool.false_ne_true, if_pos hl] at h
        have := ih h
        rw [this]
        simp
      · rw [if_neg Bool.false_ne_true, if_neg hl] at h
        simp only [Option.some.injEq, Prod.mk.injEq] at h
        obtain ⟨h1, h2, _⟩ := h
        subst h1
        subst h2
        rfl

/-- A successful (`true`) transfer loop has emptied the buffer. -/
theorem transferLoop_ok {c : Bool} {buf chan b ch : List α}
    (h : transferLoop c buf chan = some (b, ch, true)) : b = [] := by
  induction buf generalizing chan with
  | nil =>
    simp only [transferLoop, Option.some.injEq, Prod.mk.injEq] at h
    exact h.1.symm
  | cons x rest ih =>
    rw [transferLoop_cons] at h
    cases c with
    | true => simp at h
    | false =>
      by_cases hl : chan.length < chanSize
      · rw [if_neg Bool.false_ne_true, if_pos hl] at h
        exact ih h
      · rw [if_neg Bool.false_ne_true, if_neg hl] at h
        simp at h

/-- The transfer loop only appends to the channel. -/
theorem transferLoop_channel_grows {c : Bool} {buf chan b ch : List α}
    {ok : Bool} (h : transferLoop c buf chan = some (b, ch, ok)) :
    ∃ t, ch = chan ++ t := by
  induction buf generalizing chan with
  | nil =>
    simp only [transferLoop, Option.some.injEq, Prod.mk.injEq] at h
    exact ⟨[], by simp [h.2.1.symm]⟩
  | cons x rest ih =>
    rw [transferLoop_cons] at h
    cases c with
    | true => simp at h
    | false =>
      by_cases hl : chan.length < chanSize
      · rw [if_neg Bool.false_ne_true, if_pos hl] at h
        obtain ⟨t, ht⟩ := ih h
        exact ⟨x :: t, by simp [ht]⟩
      · rw [if_neg Bool.false_ne_true, if_neg hl] at h
        simp only [Option.some.injEq, Prod.mk.injEq] at h
        exact ⟨[], by simp [h.2.1.symm]⟩

/-- A transfer on a closed queue with an empty buffer (the only closed
states reachable through the API) is a no-op. -/
theorem transfer_closed_empty (s : Unbounded α) (hb : s.buffer = []) :
    s.transfer = some (s, true) := by
  cases s with
  | mk buffer channel closed =>
    simp only at hb
    subst hb
    simp [Unbounded.transfer, transferLoop]

/-- Characterization of a successful transfer. -/
theorem transfer_spec {s s1 : Unbounded α} {ok : Bool}
    (h : s.transfer = some (s1, ok)) :
    s1.closed = s.closed ∧ s1.channel ++ s1.buffer = s.channel ++ s.buffer ∧
      (ok = true → s1.buffer = []) ∧ ∃ t, s1.channel = s.channel ++ t := by
  unfold Unbounded.transfer at h
  cases hT : transferLoop s.closed s.buffer s.channel with
  | none => rw [hT] at h; simp at h
  | some r =>
    rw [hT] at h
    obtain ⟨b, ch, okv⟩ := r
    simp only [Option.map, Option.some.injEq, Prod.mk.injEq] at h
    obtain ⟨h1, h2⟩ := h
    subst h2
    subst h1
    refine ⟨rfl, transferLoop_concat hT, ?_, transferLoop_channel_grows hT⟩
    intro hok
    subst hok
    exact transferLoop_ok hT

/-- On an open queue the transfer never panics. -/
theorem transfer_some_of_open (s : Unbounded α) (h : s.closed = false) :
    (s.transfer).isSome = true := by
  unfold Unbounded.transfer
  rw [h]
  have := transferLoop_some_of_open (α := α) s.buffer s.channel
  cases hT : transferLoop false s.buffer s.channel with
  | none => rw [hT] at this; simp at this
  | some r => simp

/-- When the transfer loop reports failure, it stopped because the channel
was full. -/
theorem transferLoop_stop {c : Bool} {buf chan b ch : List α}
    (h : transferLoop c buf chan = some (b, ch, false)) :
    chanSize ≤ ch.length := by
  induction buf generalizing chan with
  | nil => simp [transferLoop] at h
  | cons x rest ih =>
    rw [transferLoop_cons] at h
    cases c with
    | true => simp at h
    | false =>
      by_cases hl : chan.length < chanSize
      · rw [if_neg Bool.false_ne_true, if_pos hl] at h
        exact ih h
      · rw [if_neg Bool.false_ne_true, if_neg hl] at h
        simp only [Option.some.injEq, Prod.mk.injEq] at h
        rw [← h.2.1]
        exact Nat.le_of_not_lt hl

/-- `Send` on an open queue never panics, keeps the queue open, and appends
the element to the combined contents. -/
theorem Send_open (s : Unbounded α) (x : α) (h : s.closed = false) :
    ∃ s2, s.Send x = some s2 ∧ s2.closed = false ∧
      s2.channel ++ s2.buffer = s.channel ++ s.buffer ++ [x] := by
  have hs := transfer_some_of_open s h
  cases hT : s.transfer with
  | none => rw [hT] at hs; simp at hs
  | some p =>
    obtain ⟨s1, ok⟩ := p
    obtain ⟨hcl, hcat, hok, -⟩ := transfer_spec hT
    rw [h] at hcl
    unfold Unbounded.Send
    rw [hT]
    cases ok with
    | false =>
      refine ⟨{ s1 with buffer := s1.buffer ++ [x] }, by simp, hcl, ?_⟩
      simp [hcat.symm]
    | true =>
      have hb := hok rfl
      by_cases hl : s1.channel.length < chanSize
      · refine ⟨{ s1 with channel := s1.channel ++ [x] }, ?_, hcl, ?_⟩
        · simp [chanTrySend, hcl, hl]
        · simp only [hb, List.append_nil] at hcat
          simp [hb, hcat]
      · refine ⟨{ s1 with buffer := s1.buffer ++ [x] }, ?_, hcl, ?_⟩
        · simp [chanTrySend, hcl, hl]
        · simp [hcat.symm]

/-- `Recv` returning `(zero, false)` means the queue was closed with
nothing left: closed, channel drained, and overflow buffer empty. -/
theorem Recv_false_spec [Inhabited α] {s s2 : Unbounded α} {x : α}
    (h : s.Recv = some ((x, false), s2)) :
    s.closed = true ∧ s.channel = [] ∧ s.buffer = [] ∧ x = default := by
  unfold Unbounded.Recv at h
  cases hT : s.transfer with
  | none => rw [hT] at h; simp at h
  | some p =>
    obtain ⟨s1, ok⟩ := p
    rw [hT] at h
    obtain ⟨hcl, hcat, -, hgrow⟩ := transfer_spec hT
    simp only [Option.some_bind] at h
    cases hch : s1.channel with
    | cons y rest => rw [hch] at h; simp at h
    | nil =>
      rw [hch] at h
      by_cases hclosed : s1.closed = true
      · rw [if_pos hclosed] at h
        simp only [Option.some.injEq, Prod.mk.injEq] at h
        have hscl : s.closed = true := by rw [← hcl]; exact hclosed
        have hsb : s.buffer = [] := by
          by_contra hne
          cases hbuf : s.buffer with
          | nil => exact hne hbuf
          | cons b bs =>
            have : s.transfer = none := by
              unfold Unbounded.transfer
              rw [hscl, hbuf, transferLoop_cons]
              simp
            rw [this] at hT
            exact Option.noConfusion hT
        have hsch : s.channel = [] := by
          obtain ⟨t, ht⟩ := hgrow
          rw [hch] at ht
          exact (List.append_eq_nil.mp ht.symm).1
        exact ⟨hscl, hsch, hsb, h.1.1.symm⟩
      · rw [if_neg hclosed] at h
        exact Option.noConfusion h

/-- `Recv` finds the oldest element whenever one is present (in the channel
or the overflow buffer), for any state reachable through the API (a closed
queue has an empty buffer). -/
theorem Recv_head [Inhabited α] (s : Unbounded α)
    (hwf : s.closed = true → s.buffer = [])
    (hne : s.channel ++ s.buffer ≠ []) :
    ∃ y s2, (s.channel ++ s.buffer).head? = some y ∧
      s.Recv = some ((y, true), s2) ∧
      y :: (s2.channel ++ s2.buffer) = s.channel ++ s.buffer := by
  have hsome : (s.transfer).isSome = true := by
    cases hcl : s.closed with
    | false => exact transfer_some_of_open s hcl
    | true => rw [transfer_closed_empty s (hwf hcl)]; rfl
  cases hT : s.transfer with
  | none => rw [hT] at hsome; simp at hsome
  | some p =>
    obtain ⟨s1, ok⟩ := p
    obtain ⟨hcl, hcat, hok, hgrow⟩ := transfer_spec hT
    cases hch : s1.channel with
    | nil =>
      exfalso
      rw [hch] at hcat
      simp only [List.nil_append] at hcat
      cases hbuf : s1.buffer with
      | nil => rw [hbuf] at hcat; exact hne hcat.symm
      | cons b bs =>
        cases hclv : s.closed with
        | true =>
          have : s.buffer = [] := hwf hclv
          have h2 := transfer_closed_empty s this
          rw [h2] at hT
          simp only [Option.some.injEq, Prod.mk.injEq] at hT
          rw [← hT.1] at hbuf
          rw [this] at hbuf
          exact List.noConfusion hbuf
        | false =>
          -- open, channel empty after transfer, buffer nonempty: the loop
          -- would have sent (the channel has room), contradiction
          have : transferLoop s.closed s.buffer s.channel =
              some (s1.buffer, s1.channel, ok) := by
            unfold Unbounded.transfer at hT
            cases hTL : transferLoop s.closed s.buffer s.channel with
            | none => rw [hTL] at hT; simp at hT
            | some r =>
              rw [hTL] at hT
              obtain ⟨b2, c2, o2⟩ := r
              simp only [Option.map, Option.some.injEq, Prod.mk.injEq] at hT
              rw [← hT.1, hT.2]

          -- the final configuration of the loop has a nonempty buffer and an
          -- empty channel; but the loop only stops sending when the channel
          -- is full (length ≥ chanSize), and the empty channel has length 0
          cases ok with
          | true =>
            have := hok rfl
            rw [hbuf] at this
            exact List.noConfusion this
          | false =>
            rw [hbuf, hch] at this
            have hstop := transferLoop_stop this
            simp [chanSize] at hstop
    | cons y rest =>
      refine ⟨y, { s1 with channel := rest }, ?_, ?_, ?_⟩
      · rw [← hcat, hch]; rfl
      · unfold Unbounded.Recv
        rw [hT]
        simp only [Option.some_bind, hch]
      · rw [← hcat, hch]; rfl

/-- On a closed queue with an empty buffer, `TryRecv` reports an item on
every call (once the channel is drained it yields the zero value with
`received = true`), so the drain loop runs out of any amount of fuel. -/
theorem drainLoop_closed [Inhabited α] (fuel : Nat) :
    ∀ (s : Unbounded α) (acc : List α), s.closed = true → s.buffer = [] →
      drainLoop fuel s acc = none := by
  induction fuel with
  | zero => intro s acc _ _; rfl
  | succ n ih =>
    intro s acc hcl hb
    have ht := transfer_closed_empty s hb
    unfold drainLoop Unbounded.TryRecv
    rw [ht]
    simp only [Option.map]
    cases hch : s.channel with
    | nil =>
      simp only [chanTryRecv, hcl, if_pos rfl, if_true]
      exact ih _ _ rfl hb
    | cons y rest =>
      simp only [chanTryRecv, if_pos rfl, if_true]
      exact ih _ _ hcl hb

/-- Claim C2: for the unbounded queue, `Recv` blocks until an item is
available or the queue is closed.  For every API-reachable state (a closed
queue has an empty buffer): (1) `Recv` returns `(zero, false)` only when
the queue is closed with nothing left; (2) whenever an item is present,
`Recv` returns the oldest one with `true`; (3) on an open empty queue
`Recv` blocks (does not return) rather than reporting `false`. -/
theorem claim_C2_recv_blocks_until_item_or_close {α : Type} [Inhabited α]
    (s : Unbounded α) (hwf : s.closed = true → s.buffer = []) :
    (∀ x s2, s.Recv = some ((x, false), s2) →
      s.closed = true ∧ s.channel = [] ∧ s.buffer = [] ∧ x = default) ∧
    (s.channel ++ s.buffer ≠ [] →
      ∃ y s2, (s.channel ++ s.buffer).head? = some y ∧
        s.Recv = some ((y, true), s2)) ∧
    (s.closed = false → s.channel ++ s.buffer = [] → s.Recv = none) := by
  refine ⟨fun x s2 h => Recv_false_spec h, fun hne => ?_, fun hop hemp => ?_⟩
  · obtain ⟨y, s2, h1, h2, -⟩ := Recv_head s hwf hne
    exact ⟨y, s2, h1, h2⟩
  · have hch : s.channel = [] := (List.append_eq_nil.mp hemp).1
    have hbuf : s.buffer = [] := (List.append_eq_nil.mp hemp).2
    have ht := transfer_closed_empty s hbuf
    unfold Unbounded.Recv
    rw [ht]
    simp [hch, hop]

/-- Witness for C2: concrete application at the closed drained queue. -/
theorem claim_C2_witness :
    (⟨[], [], true⟩ : Unbounded Nat).closed = true ∧
      (⟨[], [], true⟩ : Unbounded Nat).channel = [] ∧
      (⟨[], [], true⟩ : Unbounded Nat).buffer = [] ∧ (0 : Nat) = default :=
  (claim_C2_recv_blocks_until_item_or_close (⟨[], [], true⟩ : Unbounded Nat)
    (fun _ => rfl)).1 0 ⟨[], [], true⟩ rfl

/-- Claim C3 (the code diverges from it): sending 42, closing with
overflow, then running the `TryRecv`-until-no-item loop: the first
`TryRecv` yields 42, but on the closed drained channel `TryRecv` keeps
reporting `(0, true)` (the select receive arm of `concurrent.TryRecv` is
always ready on a closed channel and does not use the comma-ok form), so
the loop yields extra zero-valued items and never terminates. -/
theorem claim_C3_drain_loop_diverges :
    sendAll (NewUnbounded Nat) [42] = some ⟨[], [42], false⟩ ∧
    Unbounded.CloseWithOverflow (⟨[], [42], false⟩ : Unbounded Nat) =
      some (none, ⟨[], [42], true⟩) ∧
    Unbounded.TryRecv (⟨[], [42], true⟩ : Unbounded Nat) =
      some ((42, true), ⟨[], [], true⟩) ∧
    Unbounded.TryRecv (⟨[], [], true⟩ : Unbounded Nat) =
      some ((0, true), ⟨[], [], true⟩) ∧
    ∀ fuel, drainLoop fuel (⟨[], [42], true⟩ : Unbounded Nat) [] = none :=
  ⟨rfl, rfl, rfl, rfl, fun fuel => drainLoop_closed fuel _ _ rfl rfl⟩

/-- A successful `Recv` pops the oldest of the combined contents and
preserves the closed flag. -/
theorem Recv_true_spec [Inhabited α] {s q2 : Unbounded α} {x : α}
    (h : s.Recv = some ((x, true), q2)) :
    q2.closed = s.closed ∧ x :: (q2.channel ++ q2.buffer) = s.channel ++ s.buffer := by
  unfold Unbounded.Recv at h
  cases hT : s.transfer with
  | none => rw [hT] at h; simp at h
  | some p =>
    obtain ⟨s1, ok⟩ := p
    rw [hT] at h
    obtain ⟨hcl, hcat, -, -⟩ := transfer_spec hT
    simp only [Option.some_bind] at h
    cases hch : s1.channel with
    | nil =>
      rw [hch] at h
      by_cases hclosed : s1.closed = true
      · rw [if_pos hclosed] at h
        simp at h
      · rw [if_neg hclosed] at h
        exact Option.noConfusion h
    | cons y rest =>
      rw [hch] at h
      simp only [Option.some.injEq, Prod.mk.injEq] at h
      obtain ⟨⟨hx, -⟩, hq2⟩ := h
      subst hx
      subst hq2
      constructor
      · exact hcl
      · rw [← hcat, hch]; rfl

/-- Each event preserves openness and the FIFO accounting invariant:
everything the consumer has observed, followed by the channel and then the
overflow buffer, is exactly the send history in order. -/
theorem qStep_inv [Inhabited α] {s : QState α} (ev : QEvent α)
    (hop : s.q.closed = false)
    (hcat : s.consumed ++ (s.q.channel ++ s.q.buffer) = s.sent) :
    (qStep s ev).q.closed = false ∧
      (qStep s ev).consumed ++ ((qStep s ev).q.channel ++ (qStep s ev).q.buffer) =
        (qStep s ev).sent := by
  cases ev with
  | send x =>
    obtain ⟨s2, hs2, hcl2, hcat2⟩ := Send_open s.q x hop
    simp only [qStep, hs2]
    refine ⟨hcl2, ?_⟩
    show s.consumed ++ (s2.channel ++ s2.buffer) = s.sent ++ [x]
    rw [show s2.channel ++ s2.buffer = s.q.channel ++ s.q.buffer ++ [x] from hcat2]
    rw [← hcat]
    simp [List.append_assoc]
  | recvPop =>
    simp only [qStep]
    split
    · next x q2 hR =>
      obtain ⟨hcl2, hcat2⟩ := Recv_true_spec hR
      refine ⟨by rw [hcl2]; exact hop, ?_⟩
      show (s.consumed ++ [x]) ++ (q2.channel ++ q2.buffer) = s.sent
      rw [← hcat, ← hcat2]
      simp
    · exact ⟨hop, hcat⟩
  | transferOnly =>
    simp only [qStep]
    split
    · next p hT =>
      obtain ⟨hcl2, hcat2, -, -⟩ := transfer_spec hT
      refine ⟨by rw [hcl2]; exact hop, ?_⟩
      show s.consumed ++ (p.1.channel ++ p.1.buffer) = s.sent
      rw [hcat2]
      exact hcat
    · exact ⟨hop, hcat⟩

/-- Helper: taking the length of the left part of an append returns it. -/
theorem take_length_append (l1 l2 : List α) : (l1 ++ l2).take l1.length = l1 := by
  induction l1 with
  | nil => rfl
  | cons x rest ih => simp [List.take, ih]

/-- The invariant holds along every trace from a fresh queue. -/
theorem runQ_inv [Inhabited α] (t : List (QEvent α)) :
    (runQ t).q.closed = false ∧
      (runQ t).consumed ++ ((runQ t).q.channel ++ (runQ t).q.buffer) =
        (runQ t).sent := by
  have main : ∀ (t : List (QEvent α)) (s : QState α),
      s.q.closed = false →
      s.consumed ++ (s.q.channel ++ s.q.buffer) = s.sent →
      (t.foldl qStep s).q.closed = false ∧
        (t.foldl qStep s).consumed ++
          ((t.foldl qStep s).q.channel ++ (t.foldl qStep s).q.buffer) =
          (t.foldl qStep s).sent := by
    intro t
    induction t with
    | nil => intro s h1 h2; exact ⟨h1, h2⟩
    | cons ev rest ih =>
      intro s h1 h2
      obtain ⟨h3, h4⟩ := qStep_inv ev h1 h2
      exact ih (qStep s ev) h3 h4
  exact main t { q := NewUnbounded α, consumed := [], sent := [] } rfl rfl

/-- Claim C9: along any linearized single-consumer execution, FIFO order is
preserved across the handoff channel and the overflow buffer combined: the
consumer has observed exactly a prefix of the send history, in send order,
and the channel followed by the buffer holds exactly the unconsumed suffix
in send order.  In particular, of two elements sent `a` before `b`, the
consumer observes `a` before (and never after) `b`. -/
theorem claim_C9_fifo_order {α : Type} [Inhabited α] (t : List (QEvent α)) :
    (runQ t).consumed ++ ((runQ t).q.channel ++ (runQ t).q.buffer) =
      (runQ t).sent ∧
    (runQ t).consumed = (runQ t).sent.take (runQ t).consumed.length := by
  obtain ⟨-, hcat⟩ := runQ_inv t
  refine ⟨hcat, ?_⟩
  rw [← hcat]
  exact (take_length_append _ _).symm

end Channel

/-! ### Group lemmas -/

/-- `Group.error` with a non-nil error appends it to the error queue and
touches nothing but `errChan` and `firstError`. -/
theorem error_some_spec (g : Group) (e : GoErr) :
    (g.error (some e)).errChan = g.errChan ++ [some e] ∧
    (g.error (some e)).cancelCause = g.cancelCause ∧
    (g.error (some e)).running = g.running ∧
    (g.error (some e)).limiterCap = g.limiterCap ∧
    (g.error (some e)).limiterLen = g.limiterLen := by
  unfold Group.error UnboundedChan.Send
  cases hf : g.firstError <;> simp [Chan1.trySend, hf]

/-- `Group.done` only touches the limiter occupancy and the counter. -/
theorem done_spec (g : Group) :
    (g.done).errChan = g.errChan ∧ (g.done).firstError = g.firstError ∧
    (g.done).cancelCause = g.cancelCause ∧
    (g.done).running = g.running - 1 := by
  unfold Group.done
  cases hc : g.limiterCap <;> simp

/-- A unit whose outcome records no error only runs the deferred `done`. -/
theorem unitFinish_noFail (g : Group) (o : Outcome) (h : o.failErr = none) :
    g.unitFinish o = g.done := by
  cases o with
  | ret err =>
    cases err with
    | none => rfl
    | some e => simp [Outcome.failErr] at h
  | panicked p => simp [Outcome.failErr] at h

/-- Effect of one completed unit on the group. -/
theorem unitFinish_spec (g : Group) (o : Outcome) :
    (g.unitFinish o).errChan = g.errChan ++ ((o.failErr).map some).toList ∧
    (g.unitFinish o).cancelCause = g.cancelCause ∧
    (g.unitFinish o).running = g.running - 1 := by
  cases o with
  | ret err =>
    cases err with
    | none =>
      rw [unitFinish_noFail g (.ret none) rfl]
      obtain ⟨h1, -, h3, h4⟩ := done_spec g
      exact ⟨by rw [h1]; simp [Outcome.failErr], h3, h4⟩
    | some e =>
      have hU : g.unitFinish (.ret (some e)) = (g.error (some e)).done := rfl
      obtain ⟨d1, -, d3, d4⟩ := done_spec (g.error (some e))
      obtain ⟨e1, e2, e3, -, -⟩ := error_some_spec g e
      rw [hU]
      refine ⟨?_, ?_, ?_⟩
      · rw [d1, e1]; simp [Outcome.failErr]
      · rw [d3, e2]
      · rw [d4, e3]
  | panicked p =>
    have hU : g.unitFinish (.panicked p) =
        (g.error (some (convertPanic p))).done := rfl
    obtain ⟨d1, -, d3, d4⟩ := done_spec (g.error (some (convertPanic p)))
    obtain ⟨e1, e2, e3, -, -⟩ := error_some_spec g (convertPanic p)
    rw [hU]
    refine ⟨?_, ?_, ?_⟩
    · rw [d1, e1]; simp [Outcome.failErr]
    · rw [d3, e2]
    · rw [d4, e3]

/-- `failuresOf` distributes over cons. -/
theorem failuresOf_cons (o : Outcome) (os : List Outcome) :
    failuresOf (o :: os) = (o.failErr).toList ++ failuresOf os := by
  unfold failuresOf
  cases h : o.failErr <;> simp [List.filterMap_cons, h]

/-- `failuresOf` distributes over append. -/
theorem failuresOf_append (os1 os2 : List Outcome) :
    failuresOf (os1 ++ os2) = failuresOf os1 ++ failuresOf os2 := by
  unfold failuresOf
  exact List.filterMap_append os1 os2 Outcome.failErr

/-- Effect of a list of completed units on the group. -/
theorem foldlFinish_spec (os : List Outcome) : ∀ g : Group,
    (g.foldlFinish os).errChan = g.errChan ++ (failuresOf os).map some ∧
    (g.foldlFinish os).cancelCause = g.cancelCause ∧
    (g.foldlFinish os).running = g.running - os.length := by
  induction os with
  | nil =>
    intro g
    refine ⟨by simp [Group.foldlFinish, failuresOf], rfl, rfl⟩
  | cons o rest ih =>
    intro g
    have hstep : g.foldlFinish (o :: rest) = (g.unitFinish o).foldlFinish rest := rfl
    obtain ⟨u1, u2, u3⟩ := unitFinish_spec g o
    obtain ⟨f1, f2, f3⟩ := ih (g.unitFinish o)
    rw [hstep]
    refine ⟨?_, ?_, ?_⟩
    · rw [f1, u1, failuresOf_cons]
      cases h : o.failErr <;> simp [h]
    · rw [f2, u2]
    · rw [f3, u3, List.length_cons]
      omega

/-- Launching a batch only raises the wait-group counter. -/
theorem foldStart_spec (os : List Outcome) : ∀ g : Group,
    (os.foldl (fun h _ => h.doStart) g).errChan = g.errChan ∧
    (os.foldl (fun h _ => h.doStart) g).firstError = g.firstError ∧
    (os.foldl (fun h _ => h.doStart) g).cancelCause = g.cancelCause ∧
    (os.foldl (fun h _ => h.doStart) g).running = g.running + os.length := by
  induction os with
  | nil => intro g; exact ⟨rfl, rfl, rfl, rfl⟩
  | cons o rest ih =>
    intro g
    have hstep : (o :: rest).foldl (fun h _ => h.doStart) g =
        rest.foldl (fun h _ => h.doStart) g.doStart := rfl
    obtain ⟨i1, i2, i3, i4⟩ := ih g.doStart
    rw [hstep]
    refine ⟨i1, i2, i3, ?_⟩
    rw [i4]
    show g.running + 1 + rest.length = g.running + (o :: rest).length
    rw [List.length_cons]
    omega

/-- Effect of a fully completed batch: errors recorded in completion order,
cancellation untouched, counter back to its initial value. -/
theorem runBatch_spec (g : Group) (os : List Outcome) :
    (g.runBatch os).errChan = g.errChan ++ (failuresOf os).map some ∧
    (g.runBatch os).cancelCause = g.cancelCause ∧
    (g.runBatch os).running = g.running := by
  unfold Group.runBatch
  obtain ⟨s1, -, s3, s4⟩ := foldStart_spec os g
  obtain ⟨f1, f2, f3⟩ := foldlFinish_spec os (os.foldl (fun h _ => h.doStart) g)
  refine ⟨?_, ?_, ?_⟩
  · rw [f1, s1]
  · rw [f2, s3]
  · rw [f3, s4]
    omega

/-- A batch with no failures leaves the first-error slot untouched. -/
theorem runBatch_noFail_firstError (g : Group) (os : List Outcome)
    (h : failuresOf os = []) :
    (g.runBatch os).firstError = g.firstError := by
  unfold Group.runBatch
  have main : ∀ (os : List Outcome) (g2 : Group), failuresOf os = [] →
      (g2.foldlFinish os).firstError = g2.firstError := by
    intro os
    induction os with
    | nil => intro g2 _; rfl
    | cons o rest ih =>
      intro g2 hnone
      rw [failuresOf_cons] at hnone
      have ho : o.failErr = none := by
        cases hx : o.failErr with
        | none => rfl
        | some e => rw [hx] at hnone; simp at hnone
      have hrest : failuresOf rest = [] := by
        rw [ho] at hnone
        simpa using hnone
      have hstep : g2.foldlFinish (o :: rest) = (g2.unitFinish o).foldlFinish rest := rfl
      rw [hstep, ih _ hrest, unitFinish_noFail g2 o ho]
      exact (done_spec g2).2.1
  rw [main os _ h]
  exact (foldStart_spec os g).2.1

/-- `joins` of a list of non-nil errors: nil for the empty list, the list
itself otherwise. -/
theorem joins_map_some (l : List GoErr) :
    joins (l.map some) = if l.isEmpty then none else some (l.map some) := by
  unfold joins
  have hf : (l.map some).filter (fun e => e.isSome) = l.map some := by
    rw [List.filter_eq_self]
    intro a ha
    obtain ⟨b, -, hb⟩ := List.mem_map.mp ha
    rw [← hb]
    rfl
  rw [hf]
  cases l with
  | nil => simp
  | cons x rest => simp

/-- `joins` never yields an empty slice or one holding a nil entry. -/
theorem joins_shape (errs : List Error) :
    joins errs = none ∨
      ∃ l, joins errs = some l ∧ l ≠ [] ∧ ∀ e ∈ l, e.isSome = true := by
  unfold joins
  by_cases h : (errs.filter (fun e => e.isSome)).length = 0
  · left; simp [h]
  · right
    refine ⟨errs.filter (fun e => e.isSome), by simp [h], ?_, ?_⟩
    · intro hnil
      rw [hnil] at h
      exact h rfl
    · intro e he
      exact List.of_mem_filter he

/-- `Group.Wait`: empties the queue, returns `joins` of its contents, and
(first cancel) sets the cancellation cause to the joined batch. -/
theorem Wait_spec (g : Group) :
    (g.Wait).1.errChan = [] ∧
    (g.Wait).2 = joins g.errChan ∧
    (g.cancelCause = none →
      (g.Wait).1.cancelCause = some (errorsJoin g.errChan)) := by
  cases hc : g.errChan with
  | nil =>
    cases hcc : g.cancelCause <;>
      simp [Group.Wait, UnboundedChan.Drain, Group.cancel, hc, hcc]
  | cons a l =>
    cases hcc : g.cancelCause <;>
      simp [Group.Wait, UnboundedChan.Drain, Group.cancel, hc, hcc]

/-- Every path out of `WaitOrError` runs the deferred `cancel` with the
value being returned; if the context was not yet cancelled, its cause
becomes exactly the returned error. -/
theorem WaitOrError_cancels (g : Group) (h : g.cancelCause = none) :
    (g.WaitOrError).1.cancelCause = some ((g.WaitOrError).2) := by
  cases hc : g.errChan <;> cases hf : g.firstError <;>
    simp [Group.WaitOrError, Group.ensureFirstError, UnboundedChan.Recv,
      UnboundedChan.Drain, Chan1.tryRecv, Group.cancel, hc, hf, h]

/-- `WaitOrError` leaves the error queue empty or strips its head. -/
theorem WaitOrError_errChan_cases (g : Group) :
    (g.WaitOrError).1.errChan = [] ∨
      (g.WaitOrError).1.errChan = g.errChan.tail := by
  cases hc : g.errChan with
  | cons a l =>
    right
    cases hf : g.firstError <;> cases hcc : g.cancelCause <;>
      simp [Group.WaitOrError, Group.ensureFirstError, UnboundedChan.Recv,
        Group.cancel, hc, hf, hcc]
  | nil =>
    left
    cases hf : g.firstError <;> cases hcc : g.cancelCause <;>
      simp [Group.WaitOrError, Group.ensureFirstError, UnboundedChan.Recv,
        UnboundedChan.Drain, Chan1.tryRecv, Group.cancel, hc, hf, hcc]

/-- Each event keeps every queued error non-nil. -/
theorem step_errChan_inv (g : Group) (ev : GEvent)
    (h : ∀ e ∈ g.errChan, e.isSome = true) :
    ∀ e ∈ (g.step ev).errChan, e.isSome = true := by
  cases ev with
  | goCall =>
    intro e he
    have heq : ((g.goAdmit).getD g).errChan = g.errChan := by
      unfold Group.goAdmit Group.doStart
      cases hcap : g.limiterCap with
      | none => rfl
      | some cap => by_cases hl : g.limiterLen < cap <;> simp [hl]
    have he2 : e ∈ ((g.goAdmit).getD g).errChan := he
    rw [heq] at he2
    exact h e he2
  | tryGoCall =>
    intro e he
    have heq : ((g.tryGo).1).errChan = g.errChan := by
      unfold Group.tryGo Group.doStart
      cases hcap : g.limiterCap with
      | none => rfl
      | some cap => by_cases hl : g.limiterLen < cap <;> simp [hl]
    have he2 : e ∈ ((g.tryGo).1).errChan := he
    rw [heq] at he2
    exact h e he2
  | finish o =>
    intro e he
    have he2 : e ∈ (g.unitFinish o).errChan := he
    rw [(unitFinish_spec g o).1] at he2
    rcases List.mem_append.mp he2 with hL | hR
    · exact h e hL
    · cases hx : o.failErr with
      | none => rw [hx] at hR; simp at hR
      | some e2 =>
        rw [hx] at hR
        simp only [Option.map, Option.toList, List.mem_singleton] at hR
        rw [hR]
        rfl
  | waitCall =>
    intro e he
    have he2 : e ∈ ((g.Wait).1).errChan := he
    rw [(Wait_spec g).1] at he2
    simp at he2
  | waitOrErrorCall =>
    intro e he
    have he2 : e ∈ ((g.WaitOrError).1).errChan := he
    rcases WaitOrError_errChan_cases g with hcase | hcase
    · rw [hcase] at he2; simp at he2
    · rw [hcase] at he2
      cases hc : g.errChan with
      | nil => rw [hc] at he2; simp at he2
      | cons a l =>
        rw [hc] at he2
        exact h e (by rw [hc]; exact List.mem_cons_of_mem a he2)
  | setLimitCall n =>
    intro e he
    have heq : ((g.SetLimit n).getD g).errChan = g.errChan := by
      unfold Group.SetLimit
      by_cases hn : n < 0
      · simp [hn]
      · by_cases hl : g.limiterLenGo ≠ 0 <;> simp [hn, hl]
    have he2 : e ∈ ((g.SetLimit n).getD g).errChan := he
    rw [heq] at he2
    exact h e he2

/-- Along every event sequence from a fresh group, the error queue holds
only non-nil errors. -/
theorem runG_errChan_all_some (evs : List GEvent) :
    ∀ e ∈ (runG evs).errChan, e.isSome = true := by
  have main : ∀ (evs : List GEvent) (g : Group),
      (∀ e ∈ g.errChan, e.isSome = true) →
      ∀ e ∈ (evs.foldl Group.step g).errChan, e.isSome = true := by
    intro evs
    induction evs with
    | nil => intro g h; exact h
    | cons ev rest ih =>
      intro g h
      exact ih (g.step ev) (step_errChan_inv g ev h)
  intro e he
  refine main evs NewGroupContext ?_ e he
  intro e2 he2
  simp [NewGroupContext] at he2

/-! ### Claims about the Group -/

/-- Claim C1 counterexample: a fresh group whose single unit has failed
with error "boom" — the failure is recorded in the error queue (and the
unit has completed), nobody has called `Wait` or `WaitOrError`, and the
derived context is NOT cancelled, contradicting the claim that the
cancellation signal is triggered the instant the unit fails. -/
theorem claim_C1_counterexample :
    (NewGroupContext.doStart.unitFinish
        (.ret (some (GoErr.mk "boom")))).errChan = [some (GoErr.mk "boom")] ∧
    (NewGroupContext.doStart.unitFinish
        (.ret (some (GoErr.mk "boom")))).running = 0 ∧
    (NewGroupContext.doStart.unitFinish
        (.ret (some (GoErr.mk "boom")))).cancelCause = none :=
  ⟨rfl, rfl, rfl⟩

/-- Claim C1 amended: failures are recorded immediately in the error
queue, but the cancellation signal is triggered only by a later `Wait`
(with the joined batch as cause) or `WaitOrError` (with its return value
as cause); completed failures alone never cancel the derived context. -/
theorem claim_C1_amended_cancel_on_wait_only (g : Group) (os : List Outcome)
    (h : g.cancelCause = none) :
    (g.runBatch os).cancelCause = none ∧
    (g.runBatch os).errChan = g.errChan ++ (failuresOf os).map some ∧
    ((g.runBatch os).Wait).1.cancelCause =
      some (errorsJoin (g.errChan ++ (failuresOf os).map some)) ∧
    ((g.runBatch os).WaitOrError).1.cancelCause =
      some (((g.runBatch os).WaitOrError).2) := by
  obtain ⟨r1, r2, -⟩ := runBatch_spec g os
  have hcc : (g.runBatch os).cancelCause = none := by rw [r2, h]
  refine ⟨hcc, r1, ?_, WaitOrError_cancels _ hcc⟩
  obtain ⟨-, -, w3⟩ := Wait_spec (g.runBatch os)
  rw [w3 hcc, r1]

/-- Witness for C1 amended: concrete one-failure batch. -/
theorem claim_C1_amended_witness :
    (NewGroupContext.runBatch [.ret (some (GoErr.mk "boom"))]).cancelCause = none ∧
    (NewGroupContext.runBatch [.ret (some (GoErr.mk "boom"))]).errChan =
      NewGroupContext.errChan ++
        (failuresOf [.ret (some (GoErr.mk "boom"))]).map some ∧
    ((NewGroupContext.runBatch [.ret (some (GoErr.mk "boom"))]).Wait).1.cancelCause =
      some (errorsJoin (NewGroupContext.errChan ++
        (failuresOf [.ret (some (GoErr.mk "boom"))]).map some)) ∧
    ((NewGroupContext.runBatch [.ret (some (GoErr.mk "boom"))]).WaitOrError).1.cancelCause =
      some (((NewGroupContext.runBatch [.ret (some (GoErr.mk "boom"))]).WaitOrError).2) :=
  claim_C1_amended_cancel_on_wait_only NewGroupContext
    [.ret (some (GoErr.mk "boom"))] rfl

/-- Claim C4: after a fully completed batch of N units of which M fail
(counting recovered panics), starting from a drained error queue, `Wait`
returns exactly the M recorded errors (here even in completion order, so
in particular as a multiset), nil when M = 0, and the wait-group counter is
back to its pre-batch value (all admitted units completed). -/
theorem claim_C4_wait_error_completeness (g : Group) (os : List Outcome)
    (h : g.errChan = []) :
    ((g.runBatch os).Wait).2 =
      (if (failuresOf os).isEmpty then none
       else some ((failuresOf os).map some)) ∧
    (((g.runBatch os).Wait).2.getD []).length = (failuresOf os).length ∧
    (g.runBatch os).running = g.running := by
  obtain ⟨r1, -, r3⟩ := runBatch_spec g os
  have hErr : (g.runBatch os).errChan = (failuresOf os).map some := by
    rw [r1, h]
    rfl
  obtain ⟨-, w2, -⟩ := Wait_spec (g.runBatch os)
  have hmain : ((g.runBatch os).Wait).2 =
      (if (failuresOf os).isEmpty then none
       else some ((failuresOf os).map some)) := by
    rw [w2, hErr, joins_map_some]
  refine ⟨hmain, ?_, r3⟩
  rw [hmain]
  cases hfs : failuresOf os with
  | nil => simp
  | cons e rest => simp

/-- Witness for C4: two units, one failing. -/
theorem claim_C4_witness :
    ((NewGroupContext.runBatch
        [.ret (some (GoErr.mk "E")), .ret none]).Wait).2 =
      (if (failuresOf [.ret (some (GoErr.mk "E")), .ret none]).isEmpty then none
       else some ((failuresOf [.ret (some (GoErr.mk "E")), .ret none]).map some)) ∧
    (((NewGroupContext.runBatch
        [.ret (some (GoErr.mk "E")), .ret none]).Wait).2.getD []).length =
      (failuresOf [.ret (some (GoErr.mk "E")), .ret none]).length ∧
    (NewGroupContext.runBatch
        [.ret (some (GoErr.mk "E")), .ret none]).running =
      NewGroupContext.running :=
  claim_C4_wait_error_completeness NewGroupContext
    [.ret (some (GoErr.mk "E")), .ret none] rfl

/-- Claim C5: after a fully completed batch on a fresh group,
`WaitOrError` returns exactly the first recorded error by arrival order
(`none` exactly when no unit failed), and it triggers the group's
cancellation with precisely the value it returns. -/
theorem claim_C5_waitOrError_first_error (os : List Outcome) :
    ((NewGroupContext.runBatch os).WaitOrError).2 = (failuresOf os).head? ∧
    (((NewGroupContext.runBatch os).WaitOrError).2 = none ↔ failuresOf os = []) ∧
    ((NewGroupContext.runBatch os).WaitOrError).1.cancelCause =
      some (((NewGroupContext.runBatch os).WaitOrError).2) := by
  obtain ⟨r1, r2, -⟩ := runBatch_spec NewGroupContext os
  have hErr : (NewGroupContext.runBatch os).errChan = (failuresOf os).map some := by
    rw [r1]
    rfl
  have hcc : (NewGroupContext.runBatch os).cancelCause = none := r2
  have hhead : ((NewGroupContext.runBatch os).WaitOrError).2 =
      (failuresOf os).head? := by
    cases hfs : failuresOf os with
    | nil =>
      have hFE : (NewGroupContext.runBatch os).firstError = Chan1.chanNil :=
        runBatch_noFail_firstError NewGroupContext os hfs
      have hE2 : (NewGroupContext.runBatch os).errChan = [] := by
        rw [hErr, hfs]
        rfl
      simp [Group.WaitOrError, Group.ensureFirstError, UnboundedChan.Recv,
        UnboundedChan.Drain, Chan1.tryRecv, hE2, hFE]
    | cons e rest =>
      have hE2 : (NewGroupContext.runBatch os).errChan =
          some e :: rest.map some := by
        rw [hErr, hfs]
        rfl
      cases hFE : (NewGroupContext.runBatch os).firstError <;>
        simp [Group.WaitOrError, Group.ensureFirstError, UnboundedChan.Recv,
          hE2, hFE]
  refine ⟨hhead, ?_, WaitOrError_cancels _ hcc⟩
  rw [hhead]
  exact List.head?_eq_none_iff

/-- Claim C6: a panicking unit is recovered at the unit boundary and
contributes exactly one non-nil error to the next `Wait` result, in its
place in the batch, leaving sibling units' outcomes untouched; an error
payload is passed through unchanged and any other payload is wrapped with
a "panic: " description. -/
theorem claim_C6_panic_isolation (g : Group) (os1 os2 : List Outcome)
    (p : PanicPayload) (h : g.errChan = []) :
    (((g.runBatch (os1 ++ .panicked p :: os2)).Wait).2).getD [] =
      (failuresOf os1).map some ++
        some (convertPanic p) :: (failuresOf os2).map some ∧
    (∀ e : GoErr, convertPanic (.errPayload e) = e) ∧
    (∀ d : String, convertPanic (.valPayload d) = GoErr.mk ("panic: " ++ d)) := by
  refine ⟨?_, fun e => rfl, fun d => rfl⟩
  obtain ⟨r1, -, -⟩ := runBatch_spec g (os1 ++ .panicked p :: os2)
  have hfs : failuresOf (os1 ++ .panicked p :: os2) =
      failuresOf os1 ++ convertPanic p :: failuresOf os2 := by
    rw [failuresOf_append, failuresOf_cons]
    rfl
  have hErr : (g.runBatch (os1 ++ .panicked p :: os2)).errChan =
      (failuresOf os1 ++ convertPanic p :: failuresOf os2).map some := by
    rw [r1, h, hfs]
    rfl
  obtain ⟨-, w2, -⟩ := Wait_spec (g.runBatch (os1 ++ .panicked p :: os2))
  have hne : (failuresOf os1 ++ convertPanic p :: failuresOf os2).isEmpty = false := by
    cases h2 : failuresOf os1 <;> simp [h2]
  rw [w2, hErr, joins_map_some, hne]
  simp

/-- Witness for C6: single panicking unit with a non-error payload. -/
theorem claim_C6_witness :
    (((NewGroupContext.runBatch
        ([] ++ .panicked (.valPayload "boom") :: [])).Wait).2).getD [] =
      (failuresOf []).map some ++
        some (convertPanic (.valPayload "boom")) :: (failuresOf []).map some ∧
    (∀ e : GoErr, convertPanic (.errPayload e) = e) ∧
    (∀ d : String, convertPanic (.valPayload d) = GoErr.mk ("panic: " ++ d)) :=
  claim_C6_panic_isolation NewGroupContext [] [] (.valPayload "boom") rfl

/-- Claim C7 counterexample: a fresh group with no limit set admits a unit
(`TryGo` = true, one unit running, no limiter), and `SetLimit 1` while that
unit is still running SUCCEEDS (no panic) — the panic fires only when the
limiter channel holds tokens, so the claim "SetLimit panics whenever any
admitted unit is still running" is false. -/
theorem claim_C7_counterexample :
    (NewGroupContext.tryGo).2 = true ∧
    (NewGroupContext.tryGo).1.running = 1 ∧
    (NewGroupContext.tryGo).1.limiterCap = none ∧
    ((NewGroupContext.tryGo).1.SetLimit 1).isSome = true :=
  ⟨rfl, rfl, rfl, rfl⟩

/-- Claim C7 amended: `SetLimit n` with `n ≥ 0` panics exactly when the
limiter currently holds at least one token (a unit admitted under a limit
is still running); otherwise it succeeds, installing a gate of capacity
`n`; `n < 0` removes the gate and never panics. -/
theorem claim_C7_setLimit_amended (g : Group) (n : Int) :
    (g.SetLimit n = none ↔ 0 ≤ n ∧ g.limiterLenGo ≠ 0) ∧
    (n < 0 → g.SetLimit n =
      some { g with limiterCap := none, limiterLen := 0 }) ∧
    (0 ≤ n → g.limiterLenGo = 0 → g.SetLimit n =
      some { g with limiterCap := some n.toNat, limiterLen := 0 }) := by
  unfold Group.SetLimit
  by_cases hn : n < 0
  · have h0 : ¬ (0 ≤ n) := by omega
    simp [hn, h0]
  · have h0 : 0 ≤ n := by omega
    by_cases hl : g.limiterLenGo = 0
    · simp [hn, hl, h0]
    · simp [hn, hl, h0]

/-- Witness for C7 amended: limiter of capacity 1 holding one token. -/
theorem claim_C7_amended_witness :
    Group.SetLimit { errChan := [], firstError := .chanNil, limiterCap := some 1, limiterLen := 1, running := 1, cancelCause := none } 1 = none :=
  (claim_C7_setLimit_amended { errChan := [], firstError := .chanNil, limiterCap := some 1, limiterLen := 1, running := 1, cancelCause := none } 1).1.mpr
    ⟨by omega, by simp [Group.limiterLenGo]⟩

/-- Claim C8: with a limiter installed, `TryGo` returns false immediately
and changes nothing when the gate is full, and otherwise takes a token,
starts the work and returns true; concretely with `SetLimit 1`: first
`TryGo` true, second false while the first unit runs, true again after the
unit completes and releases the gate. -/
theorem claim_C8_tryGo_gate (g : Group) (cap : Nat) (h : g.limiterCap = some cap) :
    (cap ≤ g.limiterLen → g.tryGo = (g, false)) ∧
    (g.limiterLen < cap →
      (g.tryGo).2 = true ∧ (g.tryGo).1.running = g.running + 1 ∧
        (g.tryGo).1.limiterLen = g.limiterLen + 1) ∧
    ((((NewGroupContext.SetLimit 1).getD NewGroupContext).tryGo).2 = true ∧
      (((NewGroupContext.SetLimit 1).getD NewGroupContext).tryGo).1.tryGo =
        ((((NewGroupContext.SetLimit 1).getD NewGroupContext).tryGo).1, false) ∧
      ((((((NewGroupContext.SetLimit 1).getD
          NewGroupContext).tryGo).1.unitFinish (.ret none)).tryGo).2 = true)) := by
  refine ⟨?_, ?_, rfl, rfl, rfl⟩
  · intro hle
    simp [Group.tryGo, h, Nat.not_lt.mpr hle]
  · intro hlt
    simp [Group.tryGo, h, hlt, Group.doStart]

/-- Witness for C8: full gate of capacity 1. -/
theorem claim_C8_witness :
    Group.tryGo { errChan := [], firstError := .chanNil, limiterCap := some 1, limiterLen := 1, running := 1, cancelCause := none } = ({ errChan := [], firstError := .chanNil, limiterCap := some 1, limiterLen := 1, running := 1, cancelCause := none }, false) :=
  (claim_C8_tryGo_gate { errChan := [], firstError := .chanNil, limiterCap := some 1, limiterLen := 1, running := 1, cancelCause := none } 1 rfl).1 (Nat.le_refl 1)

/-- Claim C10: along every event sequence from a fresh group the internal
error queue holds only non-nil errors, and every `Wait` result is either
nil or a nonempty slice whose entries are all non-nil. -/
theorem claim_C10_no_nil_errors (evs : List GEvent) :
    (∀ e ∈ (runG evs).errChan, e.isSome = true) ∧
    (((runG evs).Wait).2 = none ∨
      ∃ l, ((runG evs).Wait).2 = some l ∧ l ≠ [] ∧
        ∀ e ∈ l, e.isSome = true) := by
  refine ⟨runG_errChan_all_some evs, ?_⟩
  obtain ⟨-, w2, -⟩ := Wait_spec (runG evs)
  rw [w2]
  exact joins_shape _

/-- Witness for C10: one failing unit. -/
theorem claim_C10_witness :
    (some (GoErr.mk "x") : Error).isSome = true :=
  (claim_C10_no_nil_errors [.finish (.ret (some (GoErr.mk "x")))]).1
    (some (GoErr.mk "x")) (List.mem_singleton.mpr rfl)




end GoConcurrent
